import Mathlib

/-
Verification of the indicator / signal / backtest core of `src/app.py`
(class `MarketPanicDetector`).

Shallow embedding conventions:
* Prices, volumes and the VIX level are modelled as exact rationals (ℚ);
  the Python code computes with IEEE doubles, the spec treats the numbers
  as real.  Dates are naturals (days since an epoch); the pandas
  DatetimeIndex is strictly increasing.
* A pandas column value that can be NaN is modelled as `Option ℚ`
  (`none` = NaN).  `df.dropna()` is the filter keeping rows whose
  `Option` fields are all `some`.
* `rolling(window=w).mean()/.std()` (default `min_periods = w`) is
  defined exactly on indices `i` with `w - 1 ≤ i < length`; `.std()`
  uses the sample convention (ddof = 1, divide by w - 1).
* The Bollinger bands `Upper = MA20 + 2·STD`, `Lower = MA20 - 2·STD`
  involve a real square root, so the comparisons `Close < Lower` and
  `Close > Upper` are embedded by their exact rational reformulation
  (`close < ma ∧ 4·var < (ma - close)²`, resp. the symmetric one);
  `checkPrice_iff_real` and `sellPrice_iff_real` below prove the
  reformulation equivalent to the literal real-number comparison.
* RSI follows the float semantics of `rs = gain / loss`:
  `loss = 0 < gain` gives `rs = +inf` and `RSI = 100 - 100/(1+inf) = 100`
  exactly; `gain = loss = 0` gives `rs = NaN`, hence `RSI = NaN`
  (modelled `none`).  No division error is ever raised.
-/

namespace MPD

/-- One trading day of the primary instrument.  Only the fields the core
reads (`df.index`, `Close`, `Volume`) are kept. -/
structure Bar where
  date : ℕ
  close : ℚ
  volume : ℚ
  deriving DecidableEq

/-! ### Rolling indicators (`calculate_technicals`, src/app.py lines 140-159) -/

/-- Sum of the `w` most recent values `f i, f (i-1), …, f (i-w+1)` of a
per-index series. -/
def winSum (w : ℕ) (f : ℕ → ℚ) (i : ℕ) : ℚ :=
  ((List.range w).map (fun k => f (i - k))).sum

/-- `df['MA20'] = df['Close'].rolling(window=20).mean()`. -/
def ma20 (xs : List ℚ) (i : ℕ) : Option ℚ :=
  if 19 ≤ i ∧ i < xs.length then some (winSum 20 (fun j => xs.getD j 0) i / 20) else none

/-- The square of `df['STD'] = df['Close'].rolling(window=20).std()`
(sample variance, ddof = 1).  The band comparisons only ever use the
square of the standard deviation, see `checkPrice` below. -/
def stdSq20 (xs : List ℚ) (i : ℕ) : Option ℚ :=
  if 19 ≤ i ∧ i < xs.length then
    some (((List.range 20).map
      (fun k => (xs.getD (i - k) 0 - winSum 20 (fun j => xs.getD j 0) i / 20) ^ 2)).sum / 19)
  else none

/-- `df['Vol_MA20'] = df['Volume'].rolling(window=20).mean()`. -/
def volMa20 (vs : List ℚ) (i : ℕ) : Option ℚ :=
  if 19 ≤ i ∧ i < vs.length then some (winSum 20 (fun j => vs.getD j 0) i / 20) else none

/-- `delta = df['Close'].diff()` at index `i ≥ 1`; at `i = 0` the pandas
value is NaN, which both `delta.where(delta > 0, 0)` and
`-delta.where(delta < 0, 0)` coerce to 0 (NaN comparisons are False). -/
def deltaAt (xs : List ℚ) (i : ℕ) : ℚ :=
  xs.getD i 0 - xs.getD (i - 1) 0

/-- Element `i` of `delta.where(delta > 0, 0)`. -/
def gainAt (xs : List ℚ) (i : ℕ) : ℚ :=
  if i = 0 then 0 else max (deltaAt xs i) 0

/-- Element `i` of `(-delta.where(delta < 0, 0))`. -/
def lossAt (xs : List ℚ) (i : ℕ) : ℚ :=
  if i = 0 then 0 else max (-(deltaAt xs i)) 0

/-- `gain = (delta.where(delta > 0, 0)).rolling(window=14).mean()`.
The underlying series has no NaN (the first diff was coerced to 0), so
the rolling mean is defined from index 13 on. -/
def avgGain (xs : List ℚ) (i : ℕ) : Option ℚ :=
  if 13 ≤ i ∧ i < xs.length then some (winSum 14 (gainAt xs) i / 14) else none

/-- `loss = (-delta.where(delta < 0, 0)).rolling(window=14).mean()`. -/
def avgLoss (xs : List ℚ) (i : ℕ) : Option ℚ :=
  if 13 ≤ i ∧ i < xs.length then some (winSum 14 (lossAt xs) i / 14) else none

/-- `df['RSI'] = 100 - (100 / (1 + gain/loss))` with float semantics of
the quotient: `loss = 0 < gain` gives `+inf` hence RSI exactly 100;
`gain = loss = 0` gives NaN (modelled `none`). -/
def rsiAt (xs : List ℚ) (i : ℕ) : Option ℚ :=
  match avgGain xs i, avgLoss xs i with
  | some g, some l =>
      if l = 0 then (if g = 0 then none else some 100)
      else some (100 - 100 / (1 + g / l))
  | _, _ => none

/-! ### VIX alignment (`run_backtest`, src/app.py lines 180-192)

`vix_series.reindex(stock_df.index, method='ffill').fillna(0)`:
for each primary date take the most recent VIX observation at or before
it, 0 when there is none.  When the VIX download is empty the code uses
`pd.Series(0, index=stock_df.index)` instead, which coincides with
forward-filling an empty observation list (every date gets the default
0), so a single definition covers both branches. -/

/-- Advance through the observations dated at or before `d`, updating the
forward-fill carry; returns the new carry and the remaining
observations. -/
def ffillConsume (c : Option ℚ) (obs : List (ℕ × ℚ)) (d : ℕ) : Option ℚ × List (ℕ × ℚ) :=
  match obs with
  | [] => (c, [])
  | (t, v) :: os => if t ≤ d then ffillConsume (some v) os d else (c, (t, v) :: os)

/-- Forward-fill scan over the primary dates. -/
def ffillGo (c : Option ℚ) (obs : List (ℕ × ℚ)) (ds : List ℕ) : List ℚ :=
  match ds with
  | [] => []
  | d :: ds =>
      let p := ffillConsume c obs d
      p.1.getD 0 :: ffillGo p.1 p.2 ds

/-- `vix_series.reindex(primary, method='ffill').fillna(0)`. -/
def alignFfill (primary : List ℕ) (obs : List (ℕ × ℚ)) : List ℚ :=
  ffillGo none obs primary

/-- Specification-side description of forward fill: the most recent
observation dated at or before `d`, if any. -/
def lastObsLE (obs : List (ℕ × ℚ)) (d : ℕ) : Option ℚ :=
  ((obs.filter (fun o => o.1 ≤ d)).getLast?).map Prod.snd

/-! ### The post-`dropna` dataframe rows and the signal columns
(`run_backtest`, src/app.py lines 190-220) -/

/-- One row of the dataframe handed to the simulation loop.  `Close`,
`Volume` and the filled `VIX` column are never NaN; the indicator
columns can be. -/
structure Row where
  date : ℕ
  close : ℚ
  volume : ℚ
  vix : ℚ
  ma : Option ℚ
  stdSq : Option ℚ
  volMa : Option ℚ
  rsi : Option ℚ
  deriving DecidableEq

/-- The dataframe after `df['VIX'] = aligned_vix.fillna(0)` and
`calculate_technicals`, one `Row` per input `Bar`. -/
def mkRows (bars : List Bar) (vixObs : List (ℕ × ℚ)) : List Row :=
  let closes := bars.map Bar.close
  let vols := bars.map Bar.volume
  let dates := bars.map Bar.date
  let vx := alignFfill dates vixObs
  (List.range bars.length).map (fun i =>
    { date := dates.getD i 0
      close := closes.getD i 0
      volume := vols.getD i 0
      vix := vx.getD i 0
      ma := ma20 closes i
      stdSq := stdSq20 closes i
      volMa := volMa20 vols i
      rsi := rsiAt closes i })

/-- A row survives `df.dropna()` iff every indicator column is defined
(the OHLCV and VIX columns of a `Row` are never NaN). -/
def rowDefined (r : Row) : Bool :=
  r.ma.isSome && r.stdSq.isSome && r.volMa.isSome && r.rsi.isSome

/-- `df = df[df.index >= start_datetime]` followed by `df = df.dropna()`:
the rows that reach the simulation loop. -/
def processedRows (bars : List Bar) (vixObs : List (ℕ × ℚ)) (startD : ℕ) : List Row :=
  ((mkRows bars vixObs).filter (fun r => startD ≤ r.date)).filter rowDefined

/-- `df['Check_Vol'] = df['Volume'] > (df['Vol_MA20'] * self.vol_multiplier)`
(False on a NaN `Vol_MA20`, as in pandas). -/
def checkVol (mult : ℚ) (r : Row) : Bool :=
  match r.volMa with
  | some vm => decide (vm * mult < r.volume)
  | none => false

/-- `df['Check_Price'] = df['Close'] < df['Lower']` where
`Lower = MA20 - 2·STD`.  Encoded without the square root:
`close < ma - 2·√v  ↔  close < ma ∧ 4·v < (ma - close)²`
(proved in `checkPrice_iff_real`); False on NaN indicators. -/
def checkPrice (r : Row) : Bool :=
  match r.ma, r.stdSq with
  | some m, some v => decide (r.close < m) && decide (4 * v < (m - r.close) ^ 2)
  | _, _ => false

/-- `df['Check_VIX'] = df['VIX'] > 20`. -/
def checkVix (r : Row) : Bool :=
  decide (20 < r.vix)

/-- `df['Signal_Buy'] = df['Check_Price'] & df['Check_Vol'] & df['Check_VIX']`. -/
def signalBuy (mult : ℚ) (r : Row) : Bool :=
  checkPrice r && checkVol mult r && checkVix r

/-- `today['Close'] > today['Upper']` where `Upper = MA20 + 2·STD`,
encoded without the square root (see `sellPrice_iff_real`). -/
def sellPrice (r : Row) : Bool :=
  match r.ma, r.stdSq with
  | some m, some v => decide (m < r.close) && decide (4 * v < (r.close - m) ^ 2)
  | _, _ => false

/-- `is_sell = (Close > Upper) and Check_Vol and (VIX < 20)`
(src/app.py lines 218-220). -/
def isSell (mult : ℚ) (r : Row) : Bool :=
  sellPrice r && checkVol mult r && decide (r.vix < 20)

/-! ### The position/trade state machine (src/app.py lines 205-244) -/

/-- An open position (the dict appended at src/app.py lines 223-228). -/
structure Position where
  entryDate : ℕ
  entryPrice : ℚ
  entryVix : ℚ
  entryVol : ℚ
  deriving DecidableEq

/-- A closed trade (the dict appended at src/app.py lines 232-243).
`entry_vix`/`exit_vix` are stored by the code as strings formatted to
one decimal; the exact value is kept here.  `int(vol / unit_divisor)`
truncates toward zero, which on the (nonnegative) volumes equals the
floor. -/
structure Trade where
  entryDate : ℕ
  exitDate : ℕ
  entryPrice : ℚ
  exitPrice : ℚ
  entryVix : ℚ
  exitVix : ℚ
  volumeAtEntry : ℤ
  volumeAtExit : ℤ
  ret : ℚ
  holdingDays : ℤ
  deriving DecidableEq

/-- `positions.append({...})` on a buy signal. -/
def mkPosition (r : Row) : Position :=
  { entryDate := r.date, entryPrice := r.close, entryVix := r.vix, entryVol := r.volume }

/-- The trade recorded when position `p` is liquidated on row `r`
(`divisor` is `self.unit_divisor`). -/
def closeTrade (divisor : ℚ) (r : Row) (p : Position) : Trade :=
  { entryDate := p.entryDate
    exitDate := r.date
    entryPrice := p.entryPrice
    exitPrice := r.close
    entryVix := p.entryVix
    exitVix := r.vix
    volumeAtEntry := ⌊p.entryVol / divisor⌋
    volumeAtExit := ⌊r.volume / divisor⌋
    ret := (r.close - p.entryPrice) / p.entryPrice
    holdingDays := (r.date : ℤ) - (p.entryDate : ℤ) }

/-- The loop state: the open-position list and the trade ledger. -/
structure SimState where
  positions : List Position
  trades : List Trade
  deriving DecidableEq

/-- One iteration of the `for i in range(len(df))` loop:
`if is_buy: append position; elif is_sell and len(positions) > 0:
close every open position at today's close and clear the list`. -/
def step (mult divisor : ℚ) (s : SimState) (r : Row) : SimState :=
  if signalBuy mult r then
    { s with positions := s.positions ++ [mkPosition r] }
  else if isSell mult r && !s.positions.isEmpty then
    { positions := [], trades := s.trades ++ s.positions.map (closeTrade divisor r) }
  else s

/-- The whole simulation loop, starting from no positions and an empty
ledger. -/
def simulate (mult divisor : ℚ) (rows : List Row) : SimState :=
  rows.foldl (step mult divisor) ⟨[], []⟩

/-! ### Diagnostics and the report block -/

/-- The `stats` dict (src/app.py lines 250-258). -/
structure BStats where
  totalDays : ℕ
  countPrice : ℕ
  countVol : ℕ
  countVix : ℕ
  countAll : ℕ
  lastVolMa : ℚ
  maxVix : ℚ
  deriving DecidableEq

def mkStats (mult : ℚ) (rows : List Row) : BStats :=
  { totalDays := rows.length
    countPrice := (rows.filter checkPrice).length
    countVol := (rows.filter (checkVol mult)).length
    countVix := (rows.filter checkVix).length
    countAll := (rows.filter (signalBuy mult)).length
    lastVolMa := match rows.getLast? with
      | some r => r.volMa.getD 0
      | none => 0
    maxVix := ((rows.map Row.vix).max?).getD 0 }

/-- `run_backtest` after the data download: `None, None` when the input
bars are empty or when no row survives the date filter and `dropna`
(`if df.empty: return None, None`), otherwise the trade ledger and the
diagnostic stats. -/
def runBacktest (mult divisor : ℚ) (startD : ℕ) (bars : List Bar)
    (vixObs : List (ℕ × ℚ)) : Option (List Trade × BStats) :=
  if bars.isEmpty then none
  else
    let rows := processedRows bars vixObs startD
    if rows.isEmpty then none
    else some ((simulate mult divisor rows).trades, mkStats mult rows)

/-- The ledger carried by a `run_backtest` result (empty for the
`None, None` outcomes). -/
def tradesOf (x : Option (List Trade × BStats)) : List Trade :=
  match x with
  | none => []
  | some p => p.1

/-- `win_rate = (win_trades / total_trades) * 100` (src/app.py line 398). -/
def winRate (ts : List Trade) : ℚ :=
  (((ts.filter (fun t => 0 < t.ret)).length : ℚ) / (ts.length : ℚ)) * 100

/-- `avg_return = trades_df['return'].mean() * 100` (src/app.py line 399). -/
def avgReturn (ts : List Trade) : ℚ :=
  ((ts.map Trade.ret).sum / (ts.length : ℚ)) * 100

/-- `total_return = ((trades_df['return'] + 1).prod() - 1) * 100`
(src/app.py line 400). -/
def totalReturn (ts : List Trade) : ℚ :=
  ((ts.map (fun t => t.ret + 1)).prod - 1) * 100

/-- Independent recomputation of the compounding product, folded from
the left one trade at a time (the round-trip check of the spec). -/
def compoundProd (ts : List Trade) : ℚ :=
  ts.foldl (fun a t => a * (1 + t.ret)) 1

/-! ### Concrete inputs used to instantiate the theorems -/

/-- 14 alternating closes; the day-over-day deltas are ±1. -/
def cAlt : List ℚ := [10, 11, 10, 11, 10, 11, 10, 11, 10, 11, 10, 11, 10, 11]

/-- 14 equal closes (a strictly flat series). -/
def cFlat14 : List ℚ := [10, 10, 10, 10, 10, 10, 10, 10, 10, 10, 10, 10, 10, 10]

/-- 14 strictly increasing closes (every delta is a gain). -/
def cInc14 : List ℚ := [1, 2, 3, 4, 5, 6, 7, 8, 9, 10, 11, 12, 13, 14]

/-- 20 bars with alternating closes 10/11 and constant volume 5. -/
def bars20 : List Bar :=
  (List.range 20).map (fun i => { date := i, close := if i % 2 = 0 then 10 else 11, volume := 5 })

/-- 13 bars (shorter than the RSI warm-up). -/
def bars13 : List Bar :=
  (List.range 13).map (fun i => { date := i, close := 10 + (i : ℚ), volume := 5 })

/-- 25 flat bars. -/
def barsFlat25 : List Bar :=
  (List.range 25).map (fun i => { date := i, close := 10, volume := 5 })

/-- A row on which the composite buy signal fires (close 10 under the
lower band: ma 20, variance 1, so lower = 18; volume 10 over twice the
volume average 1; VIX 25). -/
def rowA : Row :=
  { date := 0, close := 10, volume := 10, vix := 25
    ma := some 20, stdSq := some 1, volMa := some 1, rsi := some 50 }

/-- A second buy row, one day later, with the same close as `rowA`. -/
def rowB : Row :=
  { date := 1, close := 10, volume := 10, vix := 25
    ma := some 20, stdSq := some 1, volMa := some 1, rsi := some 50 }

/-- A buy row with close 0 (admissible: validated bars are only
required to be nonnegative). -/
def rowZero : Row :=
  { date := 0, close := 0, volume := 10, vix := 25
    ma := some 20, stdSq := some 1, volMa := some 1, rsi := some 50 }

/-- A row on which the composite sell signal fires (close 12 over the
upper band: ma 5, variance 1, so upper = 7; volume spike; VIX 10). -/
def rowS : Row :=
  { date := 2, close := 12, volume := 10, vix := 10
    ma := some 5, stdSq := some 1, volMa := some 1, rsi := some 50 }

/-- The single row of `processedRows bars20 [] 0` (index 19). -/
def r19 : Row :=
  { date := 19, close := 11, volume := 5, vix := 0
    ma := some (21 / 2), stdSq := some (5 / 19), volMa := some 5, rsi := some 50 }

/-- The trade produced by buying on `rowA` and selling on `rowS`
(return 1/5, a winning trade). -/
def tradeEx : Trade := closeTrade 1 rowS (mkPosition rowA)

/-- A one-trade ledger. -/
def ledgerEx : List Trade := [tradeEx]

/-! ## Helper lemmas -/

/-- The composite buy and sell signals are never both true on a row:
the buy side needs `VIX > 20`, the sell side `VIX < 20`. -/
lemma buy_and_sell_false (mult : ℚ) (r : Row) :
    (signalBuy mult r && isSell mult r) = false := by
  by_cases h1 : (20 : ℚ) < r.vix
  · have h2 : ¬ r.vix < 20 := not_lt.mpr (le_of_lt h1)
    simp [isSell, h2]
  · simp [signalBuy, checkVix, h1]

/-- On a sell row, the buy branch of the loop body is not taken. -/
lemma signalBuy_eq_false_of_isSell {mult : ℚ} {r : Row}
    (h : isSell mult r = true) : signalBuy mult r = false := by
  have hb := buy_and_sell_false mult r
  rw [h, Bool.and_true] at hb
  exact hb

/-- `rsiAt` is NaN whenever the 14-row window is not available. -/
lemma rsiAt_eq_none_of_short {xs : List ℚ} {i : ℕ}
    (h : ¬(13 ≤ i ∧ i < xs.length)) : rsiAt xs i = none := by
  rw [rsiAt, avgGain, if_neg h]

/-- `rsiAt` in terms of defined average gain and loss. -/
lemma rsiAt_of_some {xs : List ℚ} {i : ℕ} {g l : ℚ}
    (hg : avgGain xs i = some g) (hl : avgLoss xs i = some l) :
    rsiAt xs i =
      if l = 0 then (if g = 0 then none else some 100)
      else some (100 - 100 / (1 + g / l)) := by
  rw [rsiAt, hg, hl]

/-! ## Claim C9 -/

/-- Claim C9: the composite buy signal (close below lower band, volume
spike, VIX > 20) and the composite sell signal (close above upper band,
volume spike, VIX < 20) are never both true on the same row, because the
VIX conditions are contradictory; the same-day tie-break is unreachable. -/
theorem buy_sell_never_both (mult : ℚ) (r : Row) :
    (signalBuy mult r && isSell mult r) = false :=
  buy_and_sell_false mult r

/-! ## Claim C4 -/

/-- Claim C4 (amended): when the 14-period average loss is 0 the RSI
computation raises no division error; it yields 100 when the average
gain is nonzero (`rs = +inf`), and an undefined value (NaN, from the
`0/0` ratio) when the average gain is 0 as well. -/
theorem rsi_zero_loss_spec (xs : List ℚ) (i : ℕ) (g : ℚ)
    (hl : avgLoss xs i = some 0) (hg : avgGain xs i = some g) :
    rsiAt xs i = if g = 0 then none else some 100 := by
  rw [rsiAt, hg, hl]
  simp

/-- Witness for `rsi_zero_loss_spec`: on 14 strictly increasing closes
the average loss at row 13 is 0, the average gain is 13/14 ≠ 0, and the
RSI saturates to 100. -/
theorem rsi_zero_loss_spec_witness :
    rsiAt cInc14 13 = if (13 / 14 : ℚ) = 0 then none else some 100 :=
  rsi_zero_loss_spec cInc14 13 (13 / 14) (by with_unfolding_all decide)
    (by with_unfolding_all decide)

/-- Counterexample to claim C4 as stated: on a strictly flat 14-row
series the average loss at row 13 is 0, yet the RSI there is undefined
(NaN, from the 0/0 ratio), not 100. -/
theorem rsi_zero_loss_flat_counterexample :
    avgLoss cFlat14 13 = some 0 ∧ rsiAt cFlat14 13 = none := by
  constructor
  · with_unfolding_all decide
  · with_unfolding_all decide

/-- If RSI is NaN on every index, `dropna` removes every row. -/
lemma processedRows_eq_nil_of_rsi_none (bars : List Bar) (vixObs : List (ℕ × ℚ))
    (startD : ℕ) (h : ∀ i, rsiAt (bars.map Bar.close) i = none) :
    processedRows bars vixObs startD = [] := by
  rw [processedRows, List.filter_eq_nil_iff]
  intro r hr
  have hr' : r ∈ mkRows bars vixObs := List.mem_of_mem_filter hr
  simp only [mkRows, List.mem_map, List.mem_range] at hr'
  obtain ⟨i, hi, hfe⟩ := hr'
  have hrrsi : r.rsi = none := by
    rw [← hfe]
    exact h i
  simp [rowDefined, hrrsi]

/-- An empty processed dataframe yields the `None, None` sentinel and
hence an empty ledger. -/
lemma tradesOf_eq_nil_of_processed_nil (mult divisor : ℚ) (startD : ℕ)
    (bars : List Bar) (vixObs : List (ℕ × ℚ))
    (h : processedRows bars vixObs startD = []) :
    tradesOf (runBacktest mult divisor startD bars vixObs) = [] := by
  rw [runBacktest]
  by_cases hb : bars.isEmpty
  · rw [if_pos hb]
    rfl
  · rw [if_neg hb]
    simp only [h]
    rfl

/-! ### Forward-fill lemmas (claim C5) -/

/-- `lastObsLE` on a cons: a passing head is the fallback behind the
most recent later observation. -/
lemma lastObsLE_cons (o : ℕ × ℚ) (os : List (ℕ × ℚ)) (d : ℕ) :
    lastObsLE (o :: os) d =
      if o.1 ≤ d then (lastObsLE os d).or (some o.2) else lastObsLE os d := by
  rw [lastObsLE, lastObsLE]
  by_cases h : o.1 ≤ d
  · rw [if_pos h, List.filter_cons_of_pos (by simpa using h)]
    cases hfl : os.filter (fun x => decide (x.1 ≤ d)) with
    | nil => rfl
    | cons b l =>
        rw [List.getLast?_cons_cons]
        cases hbl : (b :: l).getLast? with
        | none => simp at hbl
        | some w => rfl
  · rw [if_neg h, List.filter_cons_of_neg (by simpa using h)]

/-- On a date-sorted observation list, filtering by `date ≤ d` is a
prefix. -/
lemma filter_le_eq_takeWhile (d : ℕ) :
    ∀ os : List (ℕ × ℚ), List.Pairwise (fun a b => a.1 ≤ b.1) os →
      os.filter (fun o => decide (o.1 ≤ d)) = os.takeWhile (fun o => decide (o.1 ≤ d)) := by
  intro os
  induction os with
  | nil => intro _; rfl
  | cons o os ih =>
      intro hs
      by_cases h : o.1 ≤ d
      · rw [List.filter_cons_of_pos (by simpa using h),
          List.takeWhile_cons_of_pos (by simpa using h), ih hs.of_cons]
      · rw [List.filter_cons_of_neg (by simpa using h),
          List.takeWhile_cons_of_neg (by simpa using h), List.filter_eq_nil_iff]
        intro a ha
        have hoa := (List.pairwise_cons.mp hs).1 a ha
        simp only [decide_eq_true_eq]
        omega

/-- `lastObsLE` splits along an append. -/
lemma lastObsLE_append (l₁ l₂ : List (ℕ × ℚ)) (d : ℕ) :
    lastObsLE (l₁ ++ l₂) d = (lastObsLE l₂ d).or (lastObsLE l₁ d) := by
  rw [lastObsLE, lastObsLE, lastObsLE, List.filter_append]
  cases hfl : l₂.filter (fun o => decide (o.1 ≤ d)) with
  | nil => simp
  | cons b bl =>
      rw [List.getLast?_append_cons]
      cases hbl : (b :: bl).getLast? with
      | none => simp at hbl
      | some w => rfl

/-- The characteristic property of `ffillConsume` on sorted
observations: the new carry is the most recent observation at or before
`d` (falling back to the old carry) and the remaining observations are
the strictly later ones. -/
lemma ffillConsume_spec (d : ℕ) :
    ∀ (os : List (ℕ × ℚ)) (c : Option ℚ),
      List.Pairwise (fun a b => a.1 ≤ b.1) os →
      ffillConsume c os d =
        ((lastObsLE os d).or c, os.dropWhile (fun o => decide (o.1 ≤ d))) := by
  intro os
  induction os with
  | nil => intro c _; rfl
  | cons o os ih =>
      intro c hsort
      obtain ⟨t, v⟩ := o
      show (if t ≤ d then ffillConsume (some v) os d else (c, (t, v) :: os)) = _
      by_cases ht : t ≤ d
      · rw [if_pos ht, ih (some v) hsort.of_cons, lastObsLE_cons, if_pos ht,
          List.dropWhile_cons_of_pos (by simpa using ht), Option.or_assoc]
        cases lastObsLE os d <;> rfl
      · rw [if_neg ht, lastObsLE_cons, if_neg ht,
          List.dropWhile_cons_of_neg (by simpa using ht)]
        have hnone : lastObsLE os d = none := by
          rw [lastObsLE]
          have hfl : os.filter (fun x => decide (x.1 ≤ d)) = [] := by
            rw [List.filter_eq_nil_iff]
            intro a ha
            have hta := (List.pairwise_cons.mp hsort).1 a ha
            simp only [decide_eq_true_eq]
            omega
          rw [hfl]
          rfl
        rw [hnone]
        rfl

/-- Advancing the consume pointer past `d` loses no observation relevant
to any later date `d' ≥ d`: what was skipped is summarised by the most
recent observation at or before `d`. -/
lemma lastObsLE_split (d d' : ℕ) (hdd : d ≤ d') (os : List (ℕ × ℚ))
    (hs : List.Pairwise (fun a b => a.1 ≤ b.1) os) :
    lastObsLE os d' =
      (lastObsLE (os.dropWhile (fun o => decide (o.1 ≤ d))) d').or (lastObsLE os d) := by
  conv_lhs => rw [← List.takeWhile_append_dropWhile (fun o => decide (o.1 ≤ d)) os]
  rw [lastObsLE_append]
  congr 1
  rw [lastObsLE, lastObsLE, filter_le_eq_takeWhile d os hs]
  congr 2
  rw [List.filter_eq_self]
  intro a ha
  have hta := List.mem_takeWhile_imp ha
  simp only [decide_eq_true_eq] at hta ⊢
  omega

/-- Correctness of the forward-fill scan: with sorted observations and a
sorted primary axis, every output entry is the most recent observation
at or before its date, with the initial carry as fallback. -/
lemma ffillGo_spec :
    ∀ (ds : List ℕ) (os : List (ℕ × ℚ)) (c : Option ℚ),
      List.Pairwise (fun a b => a.1 ≤ b.1) os →
      List.Pairwise (· ≤ ·) ds →
      ffillGo c os ds = ds.map (fun d => ((lastObsLE os d).or c).getD 0) := by
  intro ds
  induction ds with
  | nil => intro os c _ _; rfl
  | cons d ds ih =>
      intro os c hos hds
      show (ffillConsume c os d).1.getD 0 ::
          ffillGo (ffillConsume c os d).1 (ffillConsume c os d).2 ds = _
      rw [ffillConsume_spec d os c hos]
      dsimp only
      rw [List.map_cons]
      congr 1
      rw [ih (os.dropWhile (fun o => decide (o.1 ≤ d))) ((lastObsLE os d).or c)
        (List.Pairwise.sublist (List.dropWhile_sublist _) hos) hds.of_cons]
      apply List.map_congr_left
      intro d' hd'
      have hdd' : d ≤ d' := (List.pairwise_cons.mp hds).1 d' hd'
      rw [lastObsLE_split d d' hdd' os hos, Option.or_assoc]

/-! ## Claim C5 -/

/-- Claim C5: for every (ascending) primary date axis and every
(date-sorted) secondary series, the aligned value at a primary date `d`
is the value of the most recent secondary observation dated at or before
`d` — never one dated after `d` — and a primary date with no
observation at or before it receives the default 0. -/
theorem ffill_alignment_correct (primary : List ℕ) (obs : List (ℕ × ℚ))
    (hobs : List.Pairwise (fun a b => a.1 ≤ b.1) obs)
    (hprim : List.Pairwise (· ≤ ·) primary) :
    alignFfill primary obs =
      primary.map (fun d =>
        match lastObsLE obs d with
        | some v => v
        | none => 0) := by
  rw [alignFfill, ffillGo_spec primary obs none hobs hprim]
  apply List.map_congr_left
  intro d _
  cases lastObsLE obs d <;> rfl

/-- Witness for `ffill_alignment_correct` on a concrete axis and series:
date 5 gets the observation dated 3, date 10 the one dated 8. -/
theorem ffill_alignment_correct_witness :
    alignFfill [5, 10] [(3, 7), (8, 9)] =
      [5, 10].map (fun d =>
        match lastObsLE [(3, 7), (8, 9)] d with
        | some v => v
        | none => 0) :=
  ffill_alignment_correct [5, 10] [(3, 7), (8, 9)] (by decide) (by decide)

/-- The buy branch of the loop body. -/
lemma step_buy (mult divisor : ℚ) (s : SimState) (r : Row)
    (hb : signalBuy mult r = true) :
    step mult divisor s r = { s with positions := s.positions ++ [mkPosition r] } := by
  simp [step, hb]

/-- The sell branch of the loop body: with at least one open position,
every position is closed at the row's close and date and the collection
is cleared (the buy branch cannot fire on a sell row). -/
lemma step_sell (mult divisor : ℚ) (s : SimState) (r : Row)
    (hs : isSell mult r = true) (hne : s.positions ≠ []) :
    step mult divisor s r =
      { positions := [], trades := s.trades ++ s.positions.map (closeTrade divisor r) } := by
  have hb := signalBuy_eq_false_of_isSell hs
  have hne' : s.positions.isEmpty = false := by
    cases hp : s.positions
    · exact absurd hp hne
    · rfl
  simp [step, hb, hs, hne']

/-- The no-transition branch of the loop body. -/
lemma step_none (mult divisor : ℚ) (s : SimState) (r : Row)
    (hb : signalBuy mult r = false)
    (h : isSell mult r = false ∨ s.positions = []) :
    step mult divisor s r = s := by
  rcases h with h | h
  · simp [step, hb, h]
  · simp [step, hb, h]

/-- Invariant of the simulation fold: with rows in strictly increasing
date order and strictly positive closes, every trade in the final ledger
has `exitDate > entryDate`, a positive entry price, and the exact return
formula. -/
lemma foldl_good (mult divisor : ℚ) :
    ∀ (rows : List Row) (s : SimState),
      List.Pairwise (fun a b => a.date < b.date) rows →
      (∀ r ∈ rows, 0 < r.close) →
      (∀ p ∈ s.positions, 0 < p.entryPrice ∧ ∀ r ∈ rows, p.entryDate < r.date) →
      (∀ t ∈ s.trades,
        t.entryDate < t.exitDate ∧ 0 < t.entryPrice ∧
        t.ret = (t.exitPrice - t.entryPrice) / t.entryPrice) →
      ∀ t ∈ (rows.foldl (step mult divisor) s).trades,
        t.entryDate < t.exitDate ∧ 0 < t.entryPrice ∧
        t.ret = (t.exitPrice - t.entryPrice) / t.entryPrice := by
  intro rows
  induction rows with
  | nil =>
      intro s _ _ _ htr
      simpa using htr
  | cons r rest ih =>
      intro s hsort hclose hpos htr
      rw [List.foldl_cons]
      have hsort' := List.Pairwise.of_cons hsort
      have hhead : ∀ b ∈ rest, r.date < b.date := (List.pairwise_cons.mp hsort).1
      have hclose' : ∀ x ∈ rest, 0 < x.close :=
        fun x hx => hclose x (List.mem_cons_of_mem _ hx)
      by_cases hb : signalBuy mult r = true
      · rw [step_buy mult divisor s r hb]
        refine ih _ hsort' hclose' ?_ htr
        intro p hp
        rcases List.mem_append.mp hp with h | h
        · obtain ⟨h1, h2⟩ := hpos p h
          exact ⟨h1, fun x hx => h2 x (List.mem_cons_of_mem _ hx)⟩
        · have hpr : p = mkPosition r := by simpa using h
          subst hpr
          exact ⟨hclose r (List.mem_cons_self _ _), fun x hx => hhead x hx⟩
      · have hbf : signalBuy mult r = false := by
          cases hsb : signalBuy mult r
          · rfl
          · exact absurd hsb hb
        by_cases hs : isSell mult r = true
        · by_cases hne : s.positions = []
          · rw [step_none mult divisor s r hbf (Or.inr hne)]
            refine ih _ hsort' hclose' ?_ htr
            intro p hp
            obtain ⟨h1, h2⟩ := hpos p hp
            exact ⟨h1, fun x hx => h2 x (List.mem_cons_of_mem _ hx)⟩
          · rw [step_sell mult divisor s r hs hne]
            refine ih _ hsort' hclose' ?_ ?_
            · intro p hp
              exact absurd hp (List.not_mem_nil p)
            · intro t ht
              rcases List.mem_append.mp ht with h | h
              · exact htr t h
              · obtain ⟨p, hpmem, hpt⟩ := List.mem_map.mp h
                obtain ⟨h1, h2⟩ := hpos p hpmem
                subst hpt
                exact ⟨h2 r (List.mem_cons_self _ _), h1, rfl⟩
        · have hsf : isSell mult r = false := by
            cases hss : isSell mult r
            · rfl
            · exact absurd hss hs
          rw [step_none mult divisor s r hbf (Or.inl hsf)]
          refine ih _ hsort' hclose' ?_ htr
          intro p hp
          obtain ⟨h1, h2⟩ := hpos p hp
          exact ⟨h1, fun x hx => h2 x (List.mem_cons_of_mem _ hx)⟩

/-- Invariant of the simulation fold: every entry or exit date of a
recorded trade satisfies any property `P` holding on all row dates. -/
lemma foldl_dates (mult divisor : ℚ) (P : ℕ → Prop) :
    ∀ (rows : List Row) (s : SimState),
      (∀ r ∈ rows, P r.date) →
      (∀ p ∈ s.positions, P p.entryDate) →
      (∀ t ∈ s.trades, P t.entryDate ∧ P t.exitDate) →
      ∀ t ∈ (rows.foldl (step mult divisor) s).trades, P t.entryDate ∧ P t.exitDate := by
  intro rows
  induction rows with
  | nil =>
      intro s _ _ htr
      simpa using htr
  | cons r rest ih =>
      intro s hrow hpos htr
      rw [List.foldl_cons]
      have hrow' : ∀ x ∈ rest, P x.date := fun x hx => hrow x (List.mem_cons_of_mem _ hx)
      by_cases hb : signalBuy mult r = true
      · rw [step_buy mult divisor s r hb]
        refine ih _ hrow' ?_ htr
        intro p hp
        rcases List.mem_append.mp hp with h | h
        · exact hpos p h
        · have hpr : p = mkPosition r := by simpa using h
          subst hpr
          exact hrow r (List.mem_cons_self _ _)
      · have hbf : signalBuy mult r = false := by
          cases hsb : signalBuy mult r
          · rfl
          · exact absurd hsb hb
        by_cases hs : isSell mult r = true
        · by_cases hne : s.positions = []
          · rw [step_none mult divisor s r hbf (Or.inr hne)]
            exact ih _ hrow' hpos htr
          · rw [step_sell mult divisor s r hs hne]
            refine ih _ hrow' ?_ ?_
            · intro p hp
              exact absurd hp (List.not_mem_nil p)
            · intro t ht
              rcases List.mem_append.mp ht with h | h
              · exact htr t h
              · obtain ⟨p, hpmem, hpt⟩ := List.mem_map.mp h
                subst hpt
                exact ⟨hpos p hpmem, hrow r (List.mem_cons_self _ _)⟩
        · have hsf : isSell mult r = false := by
            cases hss : isSell mult r
            · rfl
            · exact absurd hss hs
          rw [step_none mult divisor s r hbf (Or.inl hsf)]
          exact ih _ hrow' hpos htr

/-! ## Claim C1 -/

/-- Claim C1 (amended): when a sell signal occurs while at least one
position is open, every open position is closed at that row's close
price and date — each yielding one trade — and the open-position list
becomes empty in the same step.  Two consecutive buy signals followed by
one sell signal yield exactly 2 trades sharing the same `exitDate` and
`exitPrice` and having different `entryDate`; each trade's `entryPrice`
is its own buy row's close, so the entry prices differ exactly when
those closes differ (they are not forced to be different). -/
theorem sell_liquidation_spec (mult divisor : ℚ) :
    (∀ (s : SimState) (r : Row), isSell mult r = true → s.positions ≠ [] →
      step mult divisor s r =
        { positions := [], trades := s.trades ++ s.positions.map (closeTrade divisor r) }) ∧
    (∀ r1 r2 r3 : Row, signalBuy mult r1 = true → signalBuy mult r2 = true →
      isSell mult r3 = true →
      (simulate mult divisor [r1, r2, r3]).trades =
        [closeTrade divisor r3 (mkPosition r1), closeTrade divisor r3 (mkPosition r2)] ∧
      (closeTrade divisor r3 (mkPosition r1)).exitDate
        = (closeTrade divisor r3 (mkPosition r2)).exitDate ∧
      (closeTrade divisor r3 (mkPosition r1)).exitPrice
        = (closeTrade divisor r3 (mkPosition r2)).exitPrice ∧
      (closeTrade divisor r3 (mkPosition r1)).entryDate = r1.date ∧
      (closeTrade divisor r3 (mkPosition r2)).entryDate = r2.date ∧
      (closeTrade divisor r3 (mkPosition r1)).entryPrice = r1.close ∧
      (closeTrade divisor r3 (mkPosition r2)).entryPrice = r2.close) := by
  constructor
  · intro s r hs hne
    exact step_sell mult divisor s r hs hne
  · intro r1 r2 r3 hb1 hb2 hs3
    have e : (simulate mult divisor [r1, r2, r3]).trades
        = [closeTrade divisor r3 (mkPosition r1), closeTrade divisor r3 (mkPosition r2)] := by
      rw [simulate, List.foldl_cons, step_buy _ _ _ _ hb1, List.foldl_cons,
        step_buy _ _ _ _ hb2, List.foldl_cons, step_sell _ _ _ _ hs3 (by simp),
        List.foldl_nil]
      simp
    exact ⟨e, rfl, rfl, rfl, rfl, rfl, rfl⟩

/-- Witness for `sell_liquidation_spec`: a concrete buy-buy-sell run
produces exactly the two expected trades. -/
theorem sell_liquidation_spec_witness :
    (simulate 2 1 [rowA, rowB, rowS]).trades =
      [closeTrade 1 rowS (mkPosition rowA), closeTrade 1 rowS (mkPosition rowB)] :=
  ((sell_liquidation_spec 2 1).2 rowA rowB rowS (by with_unfolding_all decide)
    (by with_unfolding_all decide) (by with_unfolding_all decide)).1

/-- Counterexample to claim C1 as stated: two consecutive buy signals on
rows with the same close (10), followed by a sell signal, yield two
trades with the same `exitDate`/`exitPrice` and different `entryDate` —
but with EQUAL `entryPrice` (both 10), contradicting the claimed
"different entryDate and entryPrice". -/
theorem two_buys_same_close_counterexample :
    signalBuy 2 rowA = true ∧ signalBuy 2 rowB = true ∧ isSell 2 rowS = true ∧
    ((simulate 2 1 [rowA, rowB, rowS]).trades.map Trade.entryDate) = [0, 1] ∧
    ((simulate 2 1 [rowA, rowB, rowS]).trades.map Trade.exitDate) = [2, 2] ∧
    ((simulate 2 1 [rowA, rowB, rowS]).trades.map Trade.exitPrice) = [12, 12] ∧
    ((simulate 2 1 [rowA, rowB, rowS]).trades.map Trade.entryPrice) = [10, 10] := by
  refine ⟨?_, ?_, ?_, ?_, ?_, ?_, ?_⟩ <;> with_unfolding_all decide

/-! ## Claim C2 -/

/-- Claim C2 (amended): provided the simulated rows are in strictly
increasing date order (as the date-indexed dataframe guarantees) and
every close is strictly positive, every trade in the ledger has
`exitDate` strictly later than `entryDate`, strictly positive
`entryPrice`, and `returnRatio` exactly `(exitPrice − entryPrice) /
entryPrice`.  Positivity of the closes is necessary: a row with close 0
can open a position whose liquidation records a trade with
`entryPrice = 0` (see `zero_close_trade_counterexample`). -/
theorem trade_ledger_invariants (mult divisor : ℚ) (rows : List Row)
    (hsort : List.Pairwise (fun a b => a.date < b.date) rows)
    (hclose : ∀ r ∈ rows, 0 < r.close) :
    ∀ t ∈ (simulate mult divisor rows).trades,
      t.entryDate < t.exitDate ∧ 0 < t.entryPrice ∧
      t.ret = (t.exitPrice - t.entryPrice) / t.entryPrice :=
  foldl_good mult divisor rows ⟨[], []⟩ hsort hclose (by simp) (by simp)

/-- Witness for `trade_ledger_invariants` on a concrete buy-sell run. -/
theorem trade_ledger_invariants_witness :
    (closeTrade 1 rowS (mkPosition rowA)).entryDate
      < (closeTrade 1 rowS (mkPosition rowA)).exitDate ∧
    0 < (closeTrade 1 rowS (mkPosition rowA)).entryPrice ∧
    (closeTrade 1 rowS (mkPosition rowA)).ret =
      ((closeTrade 1 rowS (mkPosition rowA)).exitPrice
        - (closeTrade 1 rowS (mkPosition rowA)).entryPrice)
        / (closeTrade 1 rowS (mkPosition rowA)).entryPrice :=
  trade_ledger_invariants 2 1 [rowA, rowS] (by decide)
    (by with_unfolding_all decide) (closeTrade 1 rowS (mkPosition rowA))
    (by with_unfolding_all decide)

/-- Counterexample to claim C2 as stated: a buy row whose close is 0 (an
admissible nonnegative bar value) opens a position with entry price 0;
the subsequent liquidation appends a trade whose `entryPrice` is 0, not
strictly positive. -/
theorem zero_close_trade_counterexample :
    signalBuy 2 rowZero = true ∧
    ((simulate 2 1 [rowZero, rowS]).trades.map Trade.entryPrice) = [0] := by
  constructor <;> with_unfolding_all decide

/-! ## Claim C10 -/

/-- Claim C10: every row that reaches the simulation loop has every
indicator column defined — including RSI, which no backtest buy or sell
condition reads; a row with any undefined indicator is removed by
`dropna` before simulation, and every trade's entry and exit dates are
dates of surviving rows (so dropped rows can never open or close a
position). -/
theorem simulated_rows_all_defined (bars : List Bar) (vixObs : List (ℕ × ℚ))
    (startD : ℕ) (mult divisor : ℚ) :
    (∀ r ∈ processedRows bars vixObs startD,
      r.ma.isSome = true ∧ r.stdSq.isSome = true ∧ r.volMa.isSome = true
        ∧ r.rsi.isSome = true) ∧
    (∀ r : Row, rowDefined r = false → r ∉ processedRows bars vixObs startD) ∧
    (∀ t ∈ (simulate mult divisor (processedRows bars vixObs startD)).trades,
      t.entryDate ∈ (processedRows bars vixObs startD).map Row.date ∧
      t.exitDate ∈ (processedRows bars vixObs startD).map Row.date) := by
  refine ⟨?_, ?_, ?_⟩
  · intro r hr
    have hd : rowDefined r = true := List.of_mem_filter hr
    simp only [rowDefined, Bool.and_eq_true] at hd
    exact ⟨hd.1.1.1, hd.1.1.2, hd.1.2, hd.2⟩
  · intro r hfalse hmem
    have hd : rowDefined r = true := List.of_mem_filter hmem
    rw [hfalse] at hd
    cases hd
  · exact foldl_dates mult divisor
      (fun d => d ∈ (processedRows bars vixObs startD).map Row.date)
      (processedRows bars vixObs startD) ⟨[], []⟩
      (fun r hr => List.mem_map_of_mem Row.date hr) (by simp) (by simp)

/-- Witness for `simulated_rows_all_defined`: the surviving row of a
concrete 20-bar input has all four indicator columns defined. -/
theorem simulated_rows_all_defined_witness :
    r19.ma.isSome = true ∧ r19.stdSq.isSome = true ∧ r19.volMa.isSome = true
      ∧ r19.rsi.isSome = true :=
  (simulated_rows_all_defined bars20 [] 0 2 1).1 r19 (by with_unfolding_all decide)

/-! ## Claim C3 -/

/-- Claim C3 (amended): `MA20`, `STD` (hence both bands) and `Vol_MA20`
are undefined exactly on rows `i < 19`.  RSI, however, is undefined
exactly on rows `i < 13` together with the rows whose 14-period average
gain and average loss are both zero: the NaN of the first `diff` is
coerced to 0 by `delta.where(...)`, so the rolling mean is already
available at row 13, one row earlier than the claimed warm-up of 14.
Still, on any Bar sequence shorter than 14 rows every RSI value is
undefined, no row survives `dropna`, and no buy or sell signal can
fire (the backtest ledger is empty). -/
theorem warmup_undefined_spec :
    (∀ (xs vs : List ℚ) (i : ℕ), i < xs.length → i < vs.length →
      ((ma20 xs i = none ↔ i < 19) ∧ (stdSq20 xs i = none ↔ i < 19) ∧
       (volMa20 vs i = none ↔ i < 19) ∧
       (rsiAt xs i = none ↔ i < 13 ∨ (avgGain xs i = some 0 ∧ avgLoss xs i = some 0)))) ∧
    (∀ (bars : List Bar) (vixObs : List (ℕ × ℚ)) (startD : ℕ) (mult divisor : ℚ),
      bars.length < 14 →
      (∀ i, rsiAt (bars.map Bar.close) i = none) ∧
      processedRows bars vixObs startD = [] ∧
      tradesOf (runBacktest mult divisor startD bars vixObs) = []) := by
  constructor
  · intro xs vs i hx hv
    refine ⟨?_, ?_, ?_, ?_⟩
    · rw [ma20]
      split_ifs with h
      · exact iff_of_false (by simp) (by omega)
      · exact iff_of_true rfl (by omega)
    · rw [stdSq20]
      split_ifs with h
      · exact iff_of_false (by simp) (by omega)
      · exact iff_of_true rfl (by omega)
    · rw [volMa20]
      split_ifs with h
      · exact iff_of_false (by simp) (by omega)
      · exact iff_of_true rfl (by omega)
    · by_cases h13 : 13 ≤ i
      · have hg : avgGain xs i = some (winSum 14 (gainAt xs) i / 14) := by
          rw [avgGain, if_pos ⟨h13, hx⟩]
        have hl : avgLoss xs i = some (winSum 14 (lossAt xs) i / 14) := by
          rw [avgLoss, if_pos ⟨h13, hx⟩]
        rw [rsiAt_of_some hg hl]
        split_ifs with h1 h2
        · exact iff_of_true rfl
            (Or.inr ⟨by rw [hg, h2], by rw [hl, h1]⟩)
        · refine iff_of_false (by simp) ?_
          rintro (hlt | ⟨hg0, hl0⟩)
          · omega
          · rw [hg] at hg0
            exact h2 (Option.some.inj hg0)
        · refine iff_of_false (by simp) ?_
          rintro (hlt | ⟨hg0, hl0⟩)
          · omega
          · rw [hl] at hl0
            exact h1 (Option.some.inj hl0)
      · rw [rsiAt_eq_none_of_short (fun hc => h13 hc.1)]
        exact iff_of_true rfl (Or.inl (by omega))
  · intro bars vixObs startD mult divisor hlen
    have hrsi : ∀ i, rsiAt (bars.map Bar.close) i = none := by
      intro i
      apply rsiAt_eq_none_of_short
      rw [List.length_map]
      omega
    have hproc : processedRows bars vixObs startD = [] :=
      processedRows_eq_nil_of_rsi_none bars vixObs startD hrsi
    exact ⟨hrsi, hproc,
      tradesOf_eq_nil_of_processed_nil mult divisor startD bars vixObs hproc⟩

/-- Witness for `warmup_undefined_spec`: 13 bars are fewer than the RSI
warm-up, so the processed dataframe and the ledger are empty. -/
theorem warmup_undefined_spec_witness :
    processedRows bars13 [] 0 = [] ∧ tradesOf (runBacktest 2 1 0 bars13 []) = [] :=
  ⟨(warmup_undefined_spec.2 bars13 [] 0 2 1 (by decide)).2.1,
   (warmup_undefined_spec.2 bars13 [] 0 2 1 (by decide)).2.2⟩

/-- Counterexample to claim C3 as stated: on 14 alternating closes the
RSI at row 13 — a row with index smaller than 14 — is already defined
(the claim says every row with index below 14 has an undefined RSI). -/
theorem rsi_defined_at_13_counterexample :
    13 < 14 ∧ (rsiAt cAlt 13).isSome = true := by
  constructor
  · decide
  · with_unfolding_all decide

/-! ## Claim C8 -/

/-- Claim C8 (amended): an entirely empty Bar input never raises:
`calculate_technicals` returns the empty frame unchanged (no indicator
rows) and `run_backtest` returns the explicit no-data sentinel
`(None, None)` — it does not return an empty ledger with zero-day
diagnostics. -/
theorem empty_input_behavior (mult divisor : ℚ) (startD : ℕ)
    (vixObs : List (ℕ × ℚ)) :
    mkRows [] vixObs = [] ∧ runBacktest mult divisor startD [] vixObs = none := by
  constructor
  · rfl
  · rfl

/-- Counterexample to claim C8 as stated: on the empty input the
backtest result is the `None` sentinel, not a `(ledger, diagnostics)`
pair with an empty ledger and zero days. -/
theorem empty_input_counterexample :
    runBacktest 2 1 0 ([] : List Bar) [] = none := by
  rfl

/-! ## Claim C6 -/

/-- Claim C6 (amended): for a non-empty ledger the report block computes
the percent-scaled statistics: `win_rate` is 100 times the winning
fraction `|{t : t.ret > 0}| / totalTrades`, `avg_return` is 100 times
the mean return, and `total_return` is 100 times `∏(1 + ret) − 1`,
where the compounded value agrees with the product form recomputed
independently (left fold) from the same ledger. -/
theorem report_stats_formulas (ts : List Trade) (h : ts ≠ []) :
    winRate ts = 100 * (((ts.filter (fun t => 0 < t.ret)).length : ℚ) / (ts.length : ℚ)) ∧
    avgReturn ts = 100 * ((ts.map Trade.ret).sum / (ts.length : ℚ)) ∧
    totalReturn ts = 100 * (compoundProd ts - 1) := by
  refine ⟨by rw [winRate]; ring, by rw [avgReturn]; ring, ?_⟩
  rw [totalReturn, compoundProd]
  have hp : (ts.map (fun t => t.ret + 1)).prod
      = ts.foldl (fun a t => a * (1 + t.ret)) 1 := by
    rw [List.prod_eq_foldl, List.foldl_map]
    congr 1
    funext a t
    ring
  rw [hp]
  ring

/-- Witness for `report_stats_formulas` on the one-trade ledger. -/
theorem report_stats_formulas_witness :
    winRate ledgerEx
        = 100 * (((ledgerEx.filter (fun t => 0 < t.ret)).length : ℚ) / (ledgerEx.length : ℚ)) ∧
    avgReturn ledgerEx = 100 * ((ledgerEx.map Trade.ret).sum / (ledgerEx.length : ℚ)) ∧
    totalReturn ledgerEx = 100 * (compoundProd ledgerEx - 1) :=
  report_stats_formulas ledgerEx (by decide)

/-- Counterexample to claim C6 as stated: on a one-trade winning ledger
the code's `win_rate` is 100 while the claimed value
`|{t : t.returnRatio > 0}| / totalTrades` is 1 — the report block scales
all three statistics by 100 (percent display). -/
theorem winRate_percent_counterexample :
    winRate ledgerEx = 100 ∧
    ((ledgerEx.filter (fun t => 0 < t.ret)).length : ℚ) / (ledgerEx.length : ℚ) = 1 := by
  constructor <;> with_unfolding_all decide

/-! ## Claim C7 -/

/-- A 20-window sum over a constant series. -/
lemma winSum_const (w i : ℕ) (xs : List ℚ) (c : ℚ)
    (h : ∀ k, k < w → xs.getD (i - k) 0 = c) :
    winSum w (fun j => xs.getD j 0) i = w * c := by
  rw [winSum]
  have hcongr : ∀ k ∈ List.range w, xs.getD (i - k) 0 = (fun _ : ℕ => c) k :=
    fun k hk => h k (List.mem_range.mp hk)
  rw [List.map_congr_left hcongr, List.map_const', List.sum_replicate,
    List.length_range, nsmul_eq_mul]

/-- On a list all of whose entries are `c`, in-range `getD` reads give `c`. -/
lemma getD_eq_of_all_eq {xs : List ℚ} {c : ℚ} (hall : ∀ x ∈ xs, x = c)
    {j : ℕ} (hj : j < xs.length) : xs.getD j 0 = c := by
  rw [List.getD_eq_getElem xs 0 hj]
  exact hall _ (List.getElem_mem hj)

/-- `MA20` of a flat series is the constant itself. -/
lemma ma20_flat {xs : List ℚ} {c : ℚ} (hall : ∀ x ∈ xs, x = c)
    {i : ℕ} (h19 : 19 ≤ i) (hlen : i < xs.length) :
    ma20 xs i = some c := by
  rw [ma20, if_pos ⟨h19, hlen⟩,
    winSum_const 20 i xs c (fun k hk => getD_eq_of_all_eq hall (by omega))]
  congr 1
  field_simp

/-- The (squared) `STD` of a flat series is 0. -/
lemma stdSq20_flat {xs : List ℚ} {c : ℚ} (hall : ∀ x ∈ xs, x = c)
    {i : ℕ} (h19 : 19 ≤ i) (hlen : i < xs.length) :
    stdSq20 xs i = some 0 := by
  rw [stdSq20, if_pos ⟨h19, hlen⟩]
  have hterm : ∀ k ∈ List.range 20,
      (xs.getD (i - k) 0 - winSum 20 (fun j => xs.getD j 0) i / 20) ^ 2
        = (fun _ : ℕ => (0 : ℚ)) k := by
    intro k hk
    rw [getD_eq_of_all_eq hall (by omega),
      winSum_const 20 i xs c (fun k' hk' => getD_eq_of_all_eq hall (by omega))]
    push_cast
    have h20 : (20 : ℚ) * c / 20 = c := by field_simp
    rw [h20, sub_self]
    simp
  rw [List.map_congr_left hterm, List.map_const', List.sum_replicate]
  simp

/-- Any value taken by `stdSq20` is nonnegative (it is a sum of squares
divided by 19). -/
lemma stdSq20_nonneg {xs : List ℚ} {i : ℕ} {v : ℚ}
    (h : stdSq20 xs i = some v) : 0 ≤ v := by
  rw [stdSq20] at h
  split_ifs at h with hc
  · have hv := Option.some.inj h
    subst hv
    apply div_nonneg _ (by norm_num)
    apply List.sum_nonneg
    intro x hx
    simp only [List.mem_map] at hx
    obtain ⟨k, _, rfl⟩ := hx
    positivity

/-- Faithfulness of the squared encoding of `Check_Price`: on a row with
defined indicators, `checkPrice` holds exactly when the close is below
the real-valued lower band `ma - 2·√(stdSq)`. -/
lemma checkPrice_iff_real (r : Row) (m v : ℚ) (hm : r.ma = some m)
    (hv : r.stdSq = some v) (hv0 : 0 ≤ v) :
    checkPrice r = true ↔ (r.close : ℝ) < (m : ℝ) - 2 * Real.sqrt (v : ℝ) := by
  rw [checkPrice, hm, hv]
  simp only [Bool.and_eq_true, decide_eq_true_eq]
  have h4 : Real.sqrt (4 * (v : ℝ)) = 2 * Real.sqrt (v : ℝ) := by
    rw [show (4 : ℝ) * (v : ℝ) = (2 : ℝ) ^ 2 * (v : ℝ) by ring,
      Real.sqrt_mul (by positivity), Real.sqrt_sq (by norm_num)]
  constructor
  · rintro ⟨h1, h2⟩
    have hA : (0 : ℝ) < (m : ℝ) - (r.close : ℝ) := by
      have := sub_pos.mpr h1
      exact_mod_cast this
    have h2' : (4 : ℝ) * (v : ℝ) < ((m : ℝ) - (r.close : ℝ)) ^ 2 := by
      exact_mod_cast h2
    have hs := (Real.sqrt_lt' hA).mpr h2'
    rw [h4] at hs
    linarith
  · intro h
    have hs2 : (0 : ℝ) ≤ 2 * Real.sqrt (v : ℝ) := by positivity
    have hA : (0 : ℝ) < (m : ℝ) - (r.close : ℝ) := by linarith
    have h1 : r.close < m := by
      have := sub_pos.mp hA
      exact_mod_cast this
    have hs : Real.sqrt (4 * (v : ℝ)) < (m : ℝ) - (r.close : ℝ) := by
      rw [h4]
      linarith
    have h2' := (Real.sqrt_lt' hA).mp hs
    exact ⟨h1, by exact_mod_cast h2'⟩

/-- Faithfulness of the squared encoding of `Close > Upper`: on a row
with defined indicators, `sellPrice` holds exactly when the close is
above the real-valued upper band `ma + 2·√(stdSq)`. -/
lemma sellPrice_iff_real (r : Row) (m v : ℚ) (hm : r.ma = some m)
    (hv : r.stdSq = some v) (hv0 : 0 ≤ v) :
    sellPrice r = true ↔ (m : ℝ) + 2 * Real.sqrt (v : ℝ) < (r.close : ℝ) := by
  rw [sellPrice, hm, hv]
  simp only [Bool.and_eq_true, decide_eq_true_eq]
  have h4 : Real.sqrt (4 * (v : ℝ)) = 2 * Real.sqrt (v : ℝ) := by
    rw [show (4 : ℝ) * (v : ℝ) = (2 : ℝ) ^ 2 * (v : ℝ) by ring,
      Real.sqrt_mul (by positivity), Real.sqrt_sq (by norm_num)]
  constructor
  · rintro ⟨h1, h2⟩
    have hA : (0 : ℝ) < (r.close : ℝ) - (m : ℝ) := by
      have := sub_pos.mpr h1
      exact_mod_cast this
    have h2' : (4 : ℝ) * (v : ℝ) < ((r.close : ℝ) - (m : ℝ)) ^ 2 := by
      exact_mod_cast h2
    have hs := (Real.sqrt_lt' hA).mpr h2'
    rw [h4] at hs
    linarith
  · intro h
    have hs2 : (0 : ℝ) ≤ 2 * Real.sqrt (v : ℝ) := by positivity
    have hA : (0 : ℝ) < (r.close : ℝ) - (m : ℝ) := by linarith
    have h1 : m < r.close := by
      have := sub_pos.mp hA
      exact_mod_cast this
    have hs : Real.sqrt (4 * (v : ℝ)) < (r.close : ℝ) - (m : ℝ) := by
      rw [h4]
      linarith
    have h2' := (Real.sqrt_lt' hA).mp hs
    exact ⟨h1, by exact_mod_cast h2'⟩

/-- Claim C7: on a strictly flat close series of at least 25 days the
sample variance is 0 on every defined row, both Bollinger bands collapse
onto `ma20` (over ℝ, with the actual square root), the
`priceBelowLower` and `priceAboveUpper` conditions are false on every
dataframe row, and the backtest produces zero trades.  (On a flat
series the RSI is NaN everywhere — the 0/0 ratio — so `dropna` even
removes every row before the loop runs.) -/
theorem flat_series_spec (bars : List Bar) (c : ℚ)
    (hflat : ∀ b ∈ bars, b.close = c) (hlen : 25 ≤ bars.length) :
    (∀ i, 19 ≤ i → i < bars.length → stdSq20 (bars.map Bar.close) i = some 0) ∧
    (∀ i m v, ma20 (bars.map Bar.close) i = some m →
      stdSq20 (bars.map Bar.close) i = some v →
      (m : ℝ) + 2 * Real.sqrt (v : ℝ) = (m : ℝ) ∧
      (m : ℝ) - 2 * Real.sqrt (v : ℝ) = (m : ℝ)) ∧
    (∀ vixObs : List (ℕ × ℚ), ∀ r ∈ mkRows bars vixObs,
      checkPrice r = false ∧ sellPrice r = false) ∧
    (∀ (vixObs : List (ℕ × ℚ)) (startD : ℕ) (mult divisor : ℚ),
      processedRows bars vixObs startD = [] ∧
      tradesOf (runBacktest mult divisor startD bars vixObs) = []) := by
  have hall : ∀ x ∈ bars.map Bar.close, x = c := by
    intro x hx
    obtain ⟨b, hb, rfl⟩ := List.mem_map.mp hx
    exact hflat b hb
  have hlenm : (bars.map Bar.close).length = bars.length := List.length_map _ _
  have hstd : ∀ i, 19 ≤ i → i < bars.length →
      stdSq20 (bars.map Bar.close) i = some 0 := by
    intro i h19 hi
    exact stdSq20_flat hall h19 (by omega)
  refine ⟨hstd, ?_, ?_, ?_⟩
  · intro i m v hma hv
    have hcond : 19 ≤ i ∧ i < (bars.map Bar.close).length := by
      rw [ma20] at hma
      split_ifs at hma with hc
      · exact hc
    have hv0 : v = 0 := by
      have := hstd i hcond.1 (by omega)
      rw [this] at hv
      exact (Option.some.inj hv).symm
    subst hv0
    rw [Rat.cast_zero, Real.sqrt_zero]
    constructor <;> ring
  · intro vixObs r hr
    simp only [mkRows, List.mem_map, List.mem_range] at hr
    obtain ⟨i, hi, hfe⟩ := hr
    have hrma : r.ma = ma20 (bars.map Bar.close) i := by rw [← hfe]
    have hrstd : r.stdSq = stdSq20 (bars.map Bar.close) i := by rw [← hfe]
    have hrclose : r.close = c := by
      rw [← hfe]
      exact getD_eq_of_all_eq hall (by omega)
    by_cases h19 : 19 ≤ i
    · have hma := ma20_flat hall h19 (show i < (bars.map Bar.close).length by omega)
      have hsd := stdSq20_flat hall h19 (show i < (bars.map Bar.close).length by omega)
      rw [checkPrice, sellPrice, hrma, hrstd, hma, hsd, hrclose]
      constructor <;> simp
    · have hma : ma20 (bars.map Bar.close) i = none := by
        rw [ma20, if_neg (by omega)]
      rw [checkPrice, sellPrice, hrma, hrstd, hma]
      constructor <;> rfl
  · intro vixObs startD mult divisor
    have hrsi : ∀ i, rsiAt (bars.map Bar.close) i = none := by
      intro i
      by_cases hc : 13 ≤ i ∧ i < (bars.map Bar.close).length
      · have hg : avgGain (bars.map Bar.close) i
            = some (winSum 14 (gainAt (bars.map Bar.close)) i / 14) := by
          rw [avgGain, if_pos hc]
        have hl : avgLoss (bars.map Bar.close) i
            = some (winSum 14 (lossAt (bars.map Bar.close)) i / 14) := by
          rw [avgLoss, if_pos hc]
        have hzero : ∀ j, j ≤ i → gainAt (bars.map Bar.close) j = 0
            ∧ lossAt (bars.map Bar.close) j = 0 := by
          intro j hj
          rcases Nat.eq_zero_or_pos j with hj0 | hj0
          · subst hj0
            exact ⟨rfl, rfl⟩
          · have hd : deltaAt (bars.map Bar.close) j = 0 := by
              rw [deltaAt, getD_eq_of_all_eq hall (by omega),
                getD_eq_of_all_eq hall (by omega), sub_self]
            rw [gainAt, lossAt, if_neg (by omega), if_neg (by omega), hd]
            constructor <;> simp
        have hgsum : winSum 14 (gainAt (bars.map Bar.close)) i = 0 := by
          rw [winSum]
          have hcongr : ∀ k ∈ List.range 14,
              gainAt (bars.map Bar.close) (i - k) = (fun _ : ℕ => (0 : ℚ)) k :=
            fun k hk => (hzero (i - k) (by omega)).1
          rw [List.map_congr_left hcongr, List.map_const', List.sum_replicate]
          simp
        have hlsum : winSum 14 (lossAt (bars.map Bar.close)) i = 0 := by
          rw [winSum]
          have hcongr : ∀ k ∈ List.range 14,
              lossAt (bars.map Bar.close) (i - k) = (fun _ : ℕ => (0 : ℚ)) k :=
            fun k hk => (hzero (i - k) (by omega)).2
          rw [List.map_congr_left hcongr, List.map_const', List.sum_replicate]
          simp
        rw [rsiAt_of_some hg hl, hgsum, hlsum]
        norm_num
      · exact rsiAt_eq_none_of_short hc
    have hproc := processedRows_eq_nil_of_rsi_none bars vixObs startD hrsi
    exact ⟨hproc,
      tradesOf_eq_nil_of_processed_nil mult divisor startD bars vixObs hproc⟩

/-- Witness for `flat_series_spec`: the concrete 25-day flat series
produces an empty processed dataframe and an empty ledger. -/
theorem flat_series_spec_witness :
    processedRows barsFlat25 [] 0 = [] ∧
    tradesOf (runBacktest 2 1 0 barsFlat25 []) = [] :=
  (flat_series_spec barsFlat25 10 (by with_unfolding_all decide)
    (by decide)).2.2.2 [] 0 2 1

end MPD
